import Mathlib

/-
Verification of the user/group synchronization engine of the user_tools
repository (src/tsut/api.py and src/tsut/io.py) against its natural-language
specification.

The entity model (User, Group, UsersAndGroups) lives in the repository's
model.py, which is not part of the available sources; those definitions are
modelled from the specification text (sections 3 and 4 of spec.md) and are
marked accordingly.  Everything else is a direct shallow embedding of the
Python code in src/tsut/api.py and src/tsut/io.py.

Side effects (HTTP requests, SMTP mail, file writes) are embedded as an
explicit event trace: each embedded operation returns the ordered list of
externally visible effects it performs together with its outcome
(Except models Python exceptions).
-/

deriving instance DecidableEq for Except

namespace Tsut

/-- Modelled from the spec: the User record of the missing model.py.
Identity key name; attributes displayName, mail, optional password,
groupNames (ordered sequence of group-name references), visibility,
created and remote id (spec.md section 3). -/
structure User where
  name : String
  displayName : String := ""
  mail : String := ""
  password : Option String := none
  groupNames : List String := []
  visibility : Option String := none
  created : Option String := none
  userId : Option String := none
deriving DecidableEq, Repr

/-- Modelled from the spec: the Group record of the missing model.py.
Identity key name; attributes displayName, description, parent-group
references, visibility and optional privileges (spec.md section 3). -/
structure Group where
  name : String
  displayName : String := ""
  description : Option String := none
  groupNames : List String := []
  visibility : Option String := none
  privileges : Option (List String) := none
deriving DecidableEq, Repr

/-- Modelled from the spec: the UsersAndGroups container of the missing
model.py.  It owns insertion-ordered collections of users and groups,
keyed by name (spec.md section 3). -/
structure UsersAndGroups where
  users : List User := []
  groups : List Group := []
deriving DecidableEq, Repr

/-- Modelled from the spec: name lookup in the user table of the container
(model.py get_user).  Names are unique, so the first match is the entry. -/
def UsersAndGroups.getUser (uag : UsersAndGroups) (name : String) : Option User :=
  uag.users.find? (fun u => u.name == name)

/-- Modelled from the spec: name lookup in the group table of the container
(model.py get_group). -/
def UsersAndGroups.getGroup (uag : UsersAndGroups) (name : String) : Option Group :=
  uag.groups.find? (fun g => g.name == name)

/-- Modelled from the spec: model.py add_user with the default
RAISE_ERROR_ON_DUPLICATE policy; duplicate names are an error,
fresh names are appended preserving insertion order. -/
def UsersAndGroups.addUser (uag : UsersAndGroups) (u : User) : Except String UsersAndGroups :=
  match uag.getUser u.name with
  | some _ => .error ("Duplicate user " ++ u.name)
  | none => .ok { uag with users := uag.users ++ [u] }

/-- Modelled from the spec: model.py add_group with the default
RAISE_ERROR_ON_DUPLICATE policy. -/
def UsersAndGroups.addGroup (uag : UsersAndGroups) (g : Group) : Except String UsersAndGroups :=
  match uag.getGroup g.name with
  | some _ => .error ("Duplicate group " ++ g.name)
  | none => .ok { uag with groups := uag.groups ++ [g] }

/-- Modelled from the spec: model.py add_group with the IGNORE_ON_DUPLICATE
policy, used by the batcher; an existing entry of the same name wins. -/
def UsersAndGroups.addGroupIgnoreDup (uag : UsersAndGroups) (g : Group) : UsersAndGroups :=
  match uag.getGroup g.name with
  | some _ => uag
  | none => { uag with groups := uag.groups ++ [g] }

/-- Parent-group references of a named group; empty when the group is
absent.  Helper for the cycle check of the validity predicate. -/
def UsersAndGroups.groupParents (uag : UsersAndGroups) (gname : String) : List String :=
  match uag.getGroup gname with
  | some g => g.groupNames
  | none => []

/-- One expansion step of the set of group names reachable through
parent-group references. -/
def UsersAndGroups.reachStep (uag : UsersAndGroups) (s : List String) : List String :=
  (s ++ s.flatMap uag.groupParents).dedup

/-- Group names reachable from a starting set through parent-group
references; iterating once per group saturates the set. -/
def UsersAndGroups.reachable (uag : UsersAndGroups) (start : List String) : List String :=
  (uag.reachStep)^[uag.groups.length] start

/-- Modelled from the spec: the unknown-group-reference violations reported
by model.py is_valid - any user whose groupNames mention a name absent from
the container's group table (spec.md sections 3 and 8). -/
def UsersAndGroups.userRefViolations (uag : UsersAndGroups) : List String :=
  uag.users.flatMap (fun u =>
    (u.groupNames.filter (fun gn => (uag.getGroup gn).isNone)).map
      (fun gn => "unknown group " ++ gn ++ " referenced by user " ++ u.name))

/-- Modelled from the spec: the cyclic-group-nesting violations reported by
model.py is_valid - a group that transitively reaches itself through
parent-group references (spec.md sections 3 and 8). -/
def UsersAndGroups.cycleViolations (uag : UsersAndGroups) : List String :=
  (uag.groups.filter (fun g => (uag.reachable g.groupNames).contains g.name)).map
    (fun g => "cyclic group nesting at " ++ g.name)

/-- Modelled from the spec: model.py is_valid; returns a validity flag plus
the list of specific violations, and never raises (spec.md section 3). -/
def UsersAndGroups.isValid (uag : UsersAndGroups) : Bool × List String :=
  let v := uag.userRefViolations ++ uag.cycleViolations
  (v.isEmpty, v)

/-- The placeholder group synthesized by
SyncUsersAndGroups.__add_all_user_groups (api.py lines 395-396) when a
referenced group exists in neither dataset: Group(name=group_name,
display_name=group_name, description="Implicitely created group."). -/
def implicitGroup (gname : String) : Group :=
  { name := gname
    displayName := gname
    description := some "Implicitely created group."
    groupNames := []
    visibility := none
    privileges := none }

/-- The set of group names referenced by any user of the dataset
(api.py lines 385-387; the Python code collects them into a set, so the
embedding deduplicates). -/
def referencedGroupNames (uag : UsersAndGroups) : List String :=
  (uag.users.flatMap (fun u => u.groupNames)).dedup

/-- Loop body of SyncUsersAndGroups.__add_all_user_groups (api.py lines
389-396): for each referenced name absent from the accumulating dataset,
copy the original dataset's group of that name when it exists, otherwise
add the synthesized placeholder group. -/
def addAllGo (original : UsersAndGroups) : List String → UsersAndGroups → Except String UsersAndGroups
  | [], acc => .ok acc
  | n :: rest, acc =>
    if (acc.getGroup n).isNone then
      match original.getGroup n with
      | some g =>
        match acc.addGroup g with
        | .ok acc2 => addAllGo original rest acc2
        | .error e => .error e
      | none =>
        match acc.addGroup (implicitGroup n) with
        | .ok acc2 => addAllGo original rest acc2
        | .error e => .error e
    else addAllGo original rest acc

/-- SyncUsersAndGroups.__add_all_user_groups (api.py lines 372-396). -/
def addAllUserGroups (original newUGs : UsersAndGroups) : Except String UsersAndGroups :=
  addAllGo original (referencedGroupNames newUGs) newUGs

/-- Loop body of SyncUsersAndGroups.__merge_groups_into_new (api.py lines
411-414): when the user also exists in the original dataset, the original
user's groupNames are appended onto the new user's groupNames
(new_user.groupNames.extend(original_user.groupNames)); otherwise the
user is untouched. -/
def mergeUser (original : UsersAndGroups) (nu : User) : User :=
  match original.getUser nu.name with
  | some ou => { nu with groupNames := nu.groupNames ++ ou.groupNames }
  | none => nu

/-- SyncUsersAndGroups.__merge_groups_into_new (api.py lines 399-414). -/
def mergeGroupsIntoNew (original newUGs : UsersAndGroups) : UsersAndGroups :=
  { newUGs with users := newUGs.users.map (mergeUser original) }

/-- Fuel-indexed splitting of a list into consecutive chunks of at most n
elements, mirroring the while loop over all_users in api.py lines 342-345
(user_batch = all_users[:batch_size]; del all_users[:batch_size]).
The fuel argument only forces termination; length l fuel is enough. -/
def chunksAux (n : Nat) : Nat → List α → List (List α)
  | 0, _ => []
  | _ + 1, [] => []
  | fuel + 1, l => l.take n :: chunksAux n fuel (l.drop n)

/-- The consecutive user batches of api.py lines 342-345. -/
def chunks (n : Nat) (l : List α) : List (List α) :=
  chunksAux n l.length l

/-- Adding one user's referenced groups to a batch (api.py lines 350-352):
each group is pulled from the full dataset's group table and added with
IGNORE_ON_DUPLICATE; a name absent from the full dataset contributes
nothing (the spec assigns the resulting dangling reference to the
validation stage, not the batcher). -/
def addBatchGroups (full : UsersAndGroups) : List String → UsersAndGroups → UsersAndGroups
  | [], b => b
  | gn :: rest, b =>
    match full.getGroup gn with
    | some g => addBatchGroups full rest (b.addGroupIgnoreDup g)
    | none => addBatchGroups full rest b

/-- Building one batch dataset from a chunk of users (api.py lines
347-352): each user is looked up in the full dataset and added, followed
by that user's referenced groups. -/
def buildBatchGo (full : UsersAndGroups) : List User → UsersAndGroups → Except String UsersAndGroups
  | [], b => .ok b
  | u :: rest, b =>
    match full.getUser u.name with
    | none => .error ("user " ++ u.name ++ " not found")
    | some uu =>
      match b.addUser uu with
      | .error e => .error e
      | .ok b2 => buildBatchGo full rest (addBatchGroups full u.groupNames b2)

/-- One batch dataset (the ug_batch of api.py line 347). -/
def buildBatch (full : UsersAndGroups) (ub : List User) : Except String UsersAndGroups :=
  buildBatchGo full ub {}

/-- Sequentially building every batch dataset. -/
def batchesGo (full : UsersAndGroups) : List (List User) → Except String (List UsersAndGroups)
  | [] => .ok []
  | c :: rest =>
    match buildBatch full c with
    | .error e => .error e
    | .ok b =>
      match batchesGo full rest with
      | .error e => .error e
      | .ok bs => .ok (b :: bs)

/-- The ordered sequence of batch datasets produced by the batching loop
of api.py lines 340-352 for batch size n. -/
def batches (full : UsersAndGroups) (n : Nat) : Except String (List UsersAndGroups) :=
  batchesGo full (chunks n full.users)

/-- Structural model of substring containment (Python's in operator on
strings), defined directly over character lists so that it evaluates by
kernel reduction. -/
def charsContain (s pat : List Char) : Bool :=
  match s with
  | [] => pat.isEmpty
  | _ :: rest => pat.isPrefixOf s || charsContain rest pat

/-- Python s1 in s2 for strings (substring containment). -/
def strContains (s pat : String) : Bool :=
  charsContain s.data pat.data

/-- Fuel-indexed removal of every occurrence of pat, the effect of
Python's key.replace(pat, '') for the nonempty patterns used in api.py
lines 554 and 557. -/
def stripPatAux (pat : List Char) : Nat → List Char → List Char
  | 0, l => l
  | _ + 1, [] => []
  | fuel + 1, c :: rest =>
    if pat.isPrefixOf (c :: rest) then stripPatAux pat fuel ((c :: rest).drop pat.length)
    else c :: stripPatAux pat fuel rest

/-- Python s.replace(pat, '') - every occurrence of pat deleted. -/
def strDropAll (s pat : String) : String :=
  ⟨stripPatAux pat.data s.data.length s.data⟩

/-- Python s.endswith(suf), structurally. -/
def strEndsWith (s suf : String) : Bool :=
  suf.data.reverse.isPrefixOf s.data.reverse

/-- Python f.split('/')[-1]: the characters after the last slash. -/
def lastPathComponent (f : String) : String :=
  ⟨(f.data.reverse.takeWhile (fun c => !(c == '/'))).reverse⟩

/-- Directory normalization of api.py lines 513-514 and 576-577: append a
slash unless the path already ends with one. -/
def normDir (d : String) : String :=
  if strEndsWith d "/" then d else d ++ "/"

/-- One flattened change entry assembled in api.py lines 561-563: a dict
with keys entity, entity_type, change_type, timestamp in that insertion
order.  entity_type and change_type are None for an unrecognized bucket
key (api.py lines 558-560). -/
structure ChangeRow where
  entity : String
  entityType : Option String
  changeType : Option String
  timestamp : String
deriving DecidableEq, Repr

/-- Entity type and change type derived from a response bucket key
(api.py lines 551-560): a key containing "users" yields User and the key
with "users" deleted; otherwise a key containing "groups" yields Group
likewise; any other key yields None twice. -/
def bucketMeta (key : String) : Option String × Option String :=
  if strContains key "users" then (some "User", some (strDropAll key "users"))
  else if strContains key "groups" then (some "Group", some (strDropAll key "groups"))
  else (none, none)

/-- The flattened changes_dicts list of api.py lines 544-563, built from
the response buckets in their received order with the response timestamp
now_str. -/
def changeRows (nowStr : String) (buckets : List (String × List String)) : List ChangeRow :=
  buckets.flatMap (fun kv =>
    let m := bucketMeta kv.1
    kv.2.map (fun e =>
      { entity := e, entityType := m.1, changeType := m.2, timestamp := nowStr }))

/-- The CSV header written by csv.DictWriter in api.py line 603: the key
order of the first change dict, which is entity, entity_type,
change_type, timestamp. -/
def csvHeader : List String :=
  ["entity", "entity_type", "change_type", "timestamp"]

/-- A CSV cell for an optional value; csv.DictWriter renders Python None
as an empty cell. -/
def optCell (o : Option String) : String :=
  o.getD ""

/-- One CSV data row, in the DictWriter field order of api.py line 603. -/
def renderRow (r : ChangeRow) : List String :=
  [r.entity, optCell r.entityType, optCell r.changeType, r.timestamp]

/-- The CSV change-log table written in api.py lines 601-609: header plus
one row per change when any change occurred, an empty file otherwise. -/
def csvTable (nowStr : String) (buckets : List (String × List String)) : List (List String) :=
  let rows := changeRows nowStr buckets
  if rows.isEmpty then [] else csvHeader :: rows.map renderRow

/-- The concatenation pieces of the change-log base name built in api.py
lines 516-522 and 584-590: log_dir + "changes_" + file timestamp,
"_Test_Mode" appended when apply_changes is false, "_NO_CHANGE" appended
when no change occurred. -/
def logNameParts (logDir fileTs : String) (applyChanges : Bool) (rows : List ChangeRow) : List String :=
  [logDir, "changes_", fileTs]
    ++ (if applyChanges then [] else ["_Test_Mode"])
    ++ (if rows.isEmpty then ["_NO_CHANGE"] else [])

/-- Environment of one _sync_users_and_groups call: the remote state
fetched by get_all_users_and_groups, the two renderings of
datetime.now() taken at response time (str(now) and the strftime file
timestamp of api.py lines 496-497 and 517), and the sync response
(status code, the parsed JSON buckets in received key order, and the raw
response text). -/
structure SyncEnv where
  remote : UsersAndGroups
  nowStr : String
  fileTs : String
  status : Nat
  buckets : List (String × List String)
  respText : String
deriving DecidableEq, Repr

/-- Externally visible effects of the sync code, in program order. -/
inductive SyncEvent
  | netGetAll
  | postSync (payload : UsersAndGroups) (applyChanges removeDeleted : Bool)
  | emailSent (subject : String)
  | csvWritten (name : String) (table : List (List String))
  | jsonWritten (name : String) (content : String)
  | failedPayloadWritten (name : String) (payload : UsersAndGroups)
  | fileArchived (src dst : String)
  | sentDataSaved (userFile groupFile : String)
deriving DecidableEq, Repr

/-- Failure kinds of the sync code, following the taxonomy of spec.md
section 7.  configError is the Exception of api.py line 329,
invalidDataset the Exception of api.py line 466, remoteRejected the
ConnectionError of api.py lines 672-675, assembly a failure surfaced by
the modelled container operations. -/
inductive SyncError
  | configError (msg : String)
  | invalidDataset
  | remoteRejected (code : Nat)
  | assembly (msg : String)
deriving DecidableEq, Repr

/-- SyncUsersAndGroups._sync_users_and_groups (api.py lines 417-675) for
one dataset.  Validation failure emails (when configured) and raises
before the sync request; otherwise the dataset is posted, and on a 200
response the CSV and JSON change logs are written under names built from
the response-time timestamp (the callerTs parameter is accepted, as in
the source, but api.py line 517 overwrites it before first use), synced
source files are archived (or the sent data saved when there are none),
and a success email is sent; on any other status a failure email is sent
and the attempted payload is persisted before raising. -/
def syncOne (env : SyncEnv) (uag : UsersAndGroups) (applyChanges removeDeleted : Bool)
    (logDir archiveDir callerTs : String) (syncFiles : List String) (emailCfg : Bool) :
    List SyncEvent × Except SyncError Unit :=
  if !(uag.isValid).1 then
    ((if emailCfg then [SyncEvent.emailSent "Failure - Sync with TS"] else []),
     .error .invalidDataset)
  else
    let post := SyncEvent.postSync uag applyChanges removeDeleted
    let ld := normDir logDir
    let tagTs := env.fileTs ++ (if applyChanges then "" else "_Test_Mode")
    if env.status == 200 then
      let rows := changeRows env.nowStr env.buckets
      let ad := normDir archiveDir
      let base := String.join (logNameParts ld env.fileTs applyChanges rows)
      let csvName := base ++ ".csv"
      let jsonName := base ++ ".json"
      let archiveEvents :=
        if syncFiles.isEmpty then
          [SyncEvent.sentDataSaved ("sent_user_data_" ++ tagTs ++ ".csv")
                                   ("sent_group_data_" ++ tagTs ++ ".csv")]
        else
          syncFiles.map (fun f => SyncEvent.fileArchived f (ad ++ lastPathComponent f))
      let emailEvents := if emailCfg then [SyncEvent.emailSent "Success - Sync with TS"] else []
      (post :: SyncEvent.csvWritten csvName (csvTable env.nowStr env.buckets)
            :: SyncEvent.jsonWritten jsonName env.respText
            :: (archiveEvents ++ emailEvents),
       .ok ())
    else
      let emailEvents := if emailCfg then [SyncEvent.emailSent "Failure - Sync with TS"] else []
      (post :: (emailEvents ++
        [SyncEvent.failedPayloadWritten (ld ++ "users_and_groups_failed_sync_" ++ tagTs ++ ".json") uag]),
       .error (.remoteRejected env.status))

/-- The per-batch sync loop of api.py lines 342-359: each batch runs
through _sync_users_and_groups; an exception aborts the remaining
batches (already submitted batches are not rolled back). -/
def runBatches (env : SyncEnv) (applyChanges removeDeleted : Bool)
    (logDir archiveDir callerTs : String) (syncFiles : List String) (emailCfg : Bool) :
    List UsersAndGroups → List SyncEvent → List SyncEvent × Except SyncError Unit
  | [], acc => (acc, .ok ())
  | b :: rest, acc =>
    let r := syncOne env b applyChanges removeDeleted logDir archiveDir callerTs syncFiles emailCfg
    match r.2 with
    | .error e => (acc ++ r.1, .error e)
    | .ok _ =>
      runBatches env applyChanges removeDeleted logDir archiveDir callerTs syncFiles emailCfg
        rest (acc ++ r.1)

/-- SyncUsersAndGroups.sync_users_and_groups (api.py lines 305-370).
The remove_deleted and batch_size mutual-exclusion check of lines
328-329 runs first; fetching the existing remote dataset (lines 331),
implicit group creation (line 334), group merge (line 337), and the
batched or whole-dataset submission (lines 340-370) follow. -/
def syncUsersAndGroups (env : SyncEnv) (uag : UsersAndGroups) (applyChanges removeDeleted : Bool)
    (batchSize : Int) (createGroups mergeGroups : Bool)
    (logDir archiveDir callerTs : String) (syncFiles : List String) (emailCfg : Bool) :
    List SyncEvent × Except SyncError Unit :=
  if removeDeleted = true ∧ batchSize > 0 then
    ([], .error (.configError "Cannot have remove_deleted True and batch_size > 0"))
  else
    let fetch := createGroups || mergeGroups
    let ev0 : List SyncEvent := if fetch then [SyncEvent.netGetAll] else []
    let step1 : Except String UsersAndGroups :=
      if createGroups then addAllUserGroups env.remote uag else .ok uag
    match step1 with
    | .error e => (ev0, .error (.assembly e))
    | .ok uag1 =>
      let uag2 := if mergeGroups then mergeGroupsIntoNew env.remote uag1 else uag1
      if batchSize > 0 then
        match batches uag2 batchSize.toNat with
        | .error e => (ev0, .error (.assembly e))
        | .ok bs =>
          runBatches env applyChanges removeDeleted logDir archiveDir callerTs syncFiles emailCfg
            bs ev0
      else
        let r := syncOne env uag2 applyChanges removeDeleted logDir archiveDir callerTs syncFiles emailCfg
        (ev0 ++ r.1, r.2)

/-- Externally visible effects of SyncUsersAndGroups.delete_users. -/
inductive DeleteEvent
  | metadataFetched
  | warnedNotFound (username : String)
  | warnedNoValidUsers
  | deleteRequested (ids : List String)
deriving DecidableEq, Repr

/-- Lookup in the name-to-id dict built in api.py lines 695-698; the dict
is filled sequentially, so a later metadata entry of the same name wins. -/
def lookupLast (m : List (String × String)) (k : String) : Option String :=
  (m.reverse.find? (fun p => p.1 == k)).map (fun p => p.2)

/-- The resolution check of api.py lines 701-706: users.get(u, None)
followed by the falsy test "if not group_id", which treats both a
missing entry and an empty id as unresolved. -/
def resolveUserId (metadata : List (String × String)) (u : String) : Option String :=
  match lookupLast metadata u with
  | none => none
  | some i => if i == "" then none else some i

/-- SyncUsersAndGroups.delete_users (api.py lines 678-732), with the two
HTTP responses abstracted by their status codes and the metadata body by
its (name, id) pairs.  Unresolved usernames are warned about and
skipped; when nothing resolves the function warns and returns without a
delete request; otherwise the delete request is issued and a non-204
status raises. -/
def deleteUsers (metadataStatus : Nat) (metadata : List (String × String))
    (deleteStatus : Nat) (usernames : List String) :
    List DeleteEvent × Except String Unit :=
  if metadataStatus == 200 then
    let warns := (usernames.filter (fun u => (resolveUserId metadata u).isNone)).map
      DeleteEvent.warnedNotFound
    let ids := usernames.filterMap (resolveUserId metadata)
    if ids.isEmpty then
      (DeleteEvent.metadataFetched :: warns ++ [DeleteEvent.warnedNoValidUsers], .ok ())
    else
      let evs := DeleteEvent.metadataFetched :: warns ++ [DeleteEvent.deleteRequested ids]
      if deleteStatus == 204 then (evs, .ok ())
      else (evs, .error "Error deleting users")
  else ([], .error "Error getting user metadata")

/-- One user row of the Oracle reader after the three Groups columns have
been parsed (UGOracleReader.read_from_oracle, io.py lines 572-626); the
groups fields hold the results of the ast.literal_eval calls (with []
substituted on NULL or parse failure, io.py lines 578-624). -/
structure OracleUserRow where
  name : String
  displayName : String
  mail : String
  password : String
  visibility : Option String
  groups1 : List String
  groups2 : List String
  groups3 : List String
deriving DecidableEq, Repr

/-- all_groups_unfiltered of io.py line 626: the concatenation of the
three parsed Groups columns. -/
def oracleCombinedGroups (r : OracleUserRow) : List String :=
  r.groups1 ++ r.groups2 ++ r.groups3

/-- all_groups of io.py line 631: group names ending in an underscore are
dropped. -/
def oracleKeptGroups (r : OracleUserRow) : List String :=
  (oracleCombinedGroups r).filter (fun x => !(strEndsWith x "_"))

/-- The names removed by the underscore filter (io.py line 632); the
warning of lines 633-634 fires exactly when this is nonempty. -/
def oracleDroppedGroups (r : OracleUserRow) : List String :=
  (oracleCombinedGroups r).filter (fun x => strEndsWith x "_")

/-- Whether the underscore-filter warning of io.py lines 633-634 is
logged for this row. -/
def oracleUnderscoreWarning (r : OracleUserRow) : Bool :=
  !(oracleDroppedGroups r).isEmpty

/-- The User object constructed for an Oracle row (io.py lines 656-663):
its groupNames are the filtered combined groups. -/
def oracleUserFromRow (r : OracleUserRow) : User :=
  { name := r.name
    displayName := r.displayName
    mail := r.mail
    password := some r.password
    groupNames := oracleKeptGroups r
    visibility := r.visibility
    created := none
    userId := none }

/-- The group chosen by __add_all_user_groups for a referenced name that
the new dataset lacks (api.py lines 391-396): the original dataset's
group of that name when it exists, the synthesized placeholder
otherwise. -/
def copyOrImplicit (original : UsersAndGroups) (gn : String) : Group :=
  match original.getGroup gn with
  | some g => g
  | none => implicitGroup gn

/-- Invariant of batch construction: every group stored in the batch is
the full dataset's group of that name (batches only ever pull groups
from the full dataset's group table, api.py lines 350-352). -/
def groupsFrom (full b : UsersAndGroups) : Prop :=
  ∀ gn g', b.getGroup gn = some g' → full.getGroup gn = some g'

/-- The six change buckets of a response reporting no changes at all. -/
def emptyBuckets : List (String × List String) :=
  [("usersAdded", []), ("usersUpdated", []), ("usersDeleted", []),
   ("groupsAdded", []), ("groupsUpdated", []), ("groupsDeleted", [])]

/-- Sample response environment: success status, no changes reported. -/
def sampleEnv : SyncEnv :=
  { remote := {}
    nowStr := "NOW"
    fileTs := "07Oct25_12-00-00-000000"
    status := 200
    buckets := emptyBuckets
    respText := "resp" }

/-- Sample valid dataset: one user with no group references. -/
def sampleValidUAG : UsersAndGroups :=
  { users := [{ name := "carol" }] }

/-- Sample invalid dataset: its only user references a group name that is
absent from the group table. -/
def sampleInvalidUAG : UsersAndGroups :=
  { users := [{ name := "alice", groupNames := ["G"] }] }

/-- A user referencing group name G that no dataset defines. -/
def c2exAlice : User :=
  { name := "alice", groupNames := ["G"] }

/-- Dataset whose single user references an undefined group. -/
def c2exD : UsersAndGroups :=
  { users := [c2exAlice] }

/-- Three-user dataset with one defined and referenced group, used to
instantiate the batching theorem. -/
def c2wD : UsersAndGroups :=
  { users := [{ name := "u1", groupNames := ["A"] },
              { name := "u2" },
              { name := "u3", groupNames := ["A"] }]
    groups := [{ name := "A", displayName := "A" }] }

/-- New dataset whose user references the Sales group without defining it. -/
def c3exNew : UsersAndGroups :=
  { users := [{ name := "alice", groupNames := ["Sales"] }] }

/-- The dataset produced by implicit group creation on c3exNew with an
empty original dataset. -/
def c3exOut : UsersAndGroups :=
  { users := c3exNew.users, groups := [implicitGroup "Sales"] }

/-- The Sales group of the original dataset in the copy scenario. -/
def c3wSales : Group :=
  { name := "Sales", displayName := "Sales", description := some "Regional" }

/-- Original dataset containing the Sales group with its description. -/
def c3wOrig : UsersAndGroups :=
  { groups := [c3wSales] }

/-- Original dataset: user bob belongs to Eng. -/
def c4wOrig : UsersAndGroups :=
  { users := [{ name := "bob", groupNames := ["Eng"] }] }

/-- New dataset: user bob belongs to Support. -/
def c4wNew : UsersAndGroups :=
  { users := [{ name := "bob", groupNames := ["Support"] }] }

/-- The bob record of the new dataset. -/
def c4wBob : User :=
  { name := "bob", groupNames := ["Support"] }

/-- Buckets reporting exactly one change: user alice added. -/
def c6exBuckets : List (String × List String) :=
  [("usersAdded", ["alice"]), ("usersUpdated", []), ("usersDeleted", []),
   ("groupsAdded", []), ("groupsUpdated", []), ("groupsDeleted", [])]

/-- An Oracle row combining valid and underscore-terminated group names. -/
def c9wRow : OracleUserRow :=
  { name := "dana", displayName := "Dana", mail := "d@x", password := "p",
    visibility := none, groups1 := ["Good", "Bad_"], groups2 := ["Also_"], groups3 := [] }

/-- A group found by name lookup carries that name. -/
theorem getGroup_name_eq (uag : UsersAndGroups) (gn : String) (g : Group)
    (h : uag.getGroup gn = some g) : g.name = gn := by
  unfold UsersAndGroups.getGroup at h
  have := List.find?_some h
  simpa using this

/-- A user found by name lookup carries that name. -/
theorem getUser_name_eq (uag : UsersAndGroups) (un : String) (u : User)
    (h : uag.getUser un = some u) : u.name = un := by
  unfold UsersAndGroups.getUser at h
  have := List.find?_some h
  simpa using this

/-- With pairwise distinct user names, looking a member up by its name
returns that member. -/
theorem find?_name_of_mem_nodup (l : List User) (u : User)
    (hm : u ∈ l) (hnd : (l.map User.name).Nodup) :
    l.find? (fun x => x.name == u.name) = some u := by
  induction l with
  | nil => cases hm
  | cons v rest ih =>
    rcases List.mem_cons.mp hm with h | h
    · subst h
      exact List.find?_cons_of_pos _ (by simp)
    · have hnin : v.name ∉ rest.map User.name := (List.nodup_cons.mp (by simpa using hnd)).1
      have hvne : ¬(v.name == u.name) = true := by
        simp only [beq_iff_eq]
        intro he
        exact hnin (he ▸ List.mem_map_of_mem User.name h)
      rw [@List.find?_cons_of_neg User (fun x => x.name == u.name) v rest hvne]
      exact ih h (List.nodup_cons.mp (by simpa using hnd)).2

/-- With pairwise distinct user names, get_user of a member's name
returns that member. -/
theorem getUser_of_mem_nodup (uag : UsersAndGroups) (u : User)
    (hm : u ∈ uag.users) (hnd : (uag.users.map User.name).Nodup) :
    uag.getUser u.name = some u :=
  find?_name_of_mem_nodup uag.users u hm hnd

/-- Adding a group under IGNORE_ON_DUPLICATE never changes the users. -/
theorem addGroupIgnoreDup_users (b : UsersAndGroups) (g : Group) :
    (b.addGroupIgnoreDup g).users = b.users := by
  unfold UsersAndGroups.addGroupIgnoreDup
  cases b.getGroup g.name <;> rfl

/-- Adding a group under IGNORE_ON_DUPLICATE preserves every group
already found by name. -/
theorem addGroupIgnoreDup_getGroup_mono (b : UsersAndGroups) (g : Group)
    (gn : String) (g' : Group) (h : b.getGroup gn = some g') :
    (b.addGroupIgnoreDup g).getGroup gn = some g' := by
  unfold UsersAndGroups.addGroupIgnoreDup
  cases hbg : b.getGroup g.name with
  | some g0 => exact h
  | none =>
    show (UsersAndGroups.mk b.users (b.groups ++ [g])).getGroup gn = some g'
    unfold UsersAndGroups.getGroup at h ⊢
    rw [List.find?_append, h]
    rfl

/-- After adding a group under IGNORE_ON_DUPLICATE, its name resolves. -/
theorem addGroupIgnoreDup_self_isSome (b : UsersAndGroups) (g : Group) :
    ((b.addGroupIgnoreDup g).getGroup g.name).isSome = true := by
  unfold UsersAndGroups.addGroupIgnoreDup
  cases hbg : b.getGroup g.name with
  | some g0 => rw [hbg]; rfl
  | none =>
    show ((UsersAndGroups.mk b.users (b.groups ++ [g])).getGroup g.name).isSome = true
    unfold UsersAndGroups.getGroup at hbg ⊢
    rw [List.find?_append, hbg]
    simp [List.find?]

/-- The empty container satisfies the batch-group invariant. -/
theorem groupsFrom_empty (full : UsersAndGroups) : groupsFrom full {} := by
  intro gn g' h
  simp [UsersAndGroups.getGroup, List.find?] at h

/-- Adding the full dataset's group of some name under
IGNORE_ON_DUPLICATE preserves the batch-group invariant. -/
theorem groupsFrom_addIgnore (full b : UsersAndGroups) (g : Group)
    (hb : groupsFrom full b) (hfull : full.getGroup g.name = some g) :
    groupsFrom full (b.addGroupIgnoreDup g) := by
  intro gn g' h
  unfold UsersAndGroups.addGroupIgnoreDup at h
  cases hbg : b.getGroup g.name with
  | some g0 => rw [hbg] at h; exact hb gn g' h
  | none =>
    rw [hbg] at h
    have h2 : (b.groups ++ [g]).find? (fun x => x.name == gn) = some g' := h
    rw [List.find?_append] at h2
    cases ho : b.groups.find? (fun x => x.name == gn) with
    | some gg =>
      rw [ho] at h2
      have hgg : gg = g' := by simpa using h2
      subst hgg
      exact hb gn gg ho
    | none =>
      rw [ho] at h2
      simp only [Option.none_or] at h2
      have h3 : g' ∈ [g] := List.mem_of_find?_eq_some h2
      have h4 : g' = g := by simpa using h3
      subst h4
      have h5 : g'.name = gn := by simpa using List.find?_some h2
      rw [← h5]
      exact hfull

/-- Under the batch-group invariant, a name that resolves in both the
batch and the full dataset resolves to the same group. -/
theorem getGroup_of_groupsFrom_isSome (full b : UsersAndGroups) (gn : String) (g : Group)
    (hb : groupsFrom full b) (hs : (b.getGroup gn).isSome = true)
    (hfull : full.getGroup gn = some g) : b.getGroup gn = some g := by
  cases hbg : b.getGroup gn with
  | none => rw [hbg] at hs; cases hs
  | some g' =>
    have := hb gn g' hbg
    rw [hfull] at this
    injection this with this
    rw [this]

/-- Concatenating the chunks of the batching loop restores the input,
provided the fuel covers the input length and the chunk size is
positive. -/
theorem chunksAux_flatten (n : Nat) (hn : 0 < n) :
    ∀ (fuel : Nat) (l : List α), l.length ≤ fuel → (chunksAux n fuel l).flatten = l := by
  intro fuel
  induction fuel with
  | zero =>
    intro l hl
    have h0 : l = [] := List.eq_nil_of_length_eq_zero (Nat.le_zero.mp hl)
    subst h0
    rfl
  | succ f ih =>
    intro l hl
    cases l with
    | nil => rfl
    | cons x xs =>
      show ((x :: xs).take n :: chunksAux n f ((x :: xs).drop n)).flatten = x :: xs
      rw [List.flatten_cons]
      rw [ih ((x :: xs).drop n) (by
        simp only [List.length_drop, List.length_cons]
        simp only [List.length_cons] at hl
        omega)]
      exact List.take_append_drop n (x :: xs)

/-- Concatenating the batching loop's chunks restores the input list. -/
theorem chunks_flatten (n : Nat) (hn : 0 < n) (l : List α) :
    (chunks n l).flatten = l :=
  chunksAux_flatten n hn l.length l (Nat.le_refl _)

/-- Every chunk of the batching loop holds at most n elements. -/
theorem chunksAux_length_le (n : Nat) :
    ∀ (fuel : Nat) (l : List α), ∀ c ∈ chunksAux n fuel l, c.length ≤ n := by
  intro fuel
  induction fuel with
  | zero => intro l c hc; simp [chunksAux] at hc
  | succ f ih =>
    intro l c hc
    cases l with
    | nil => simp [chunksAux] at hc
    | cons x xs =>
      have hc2 : c = (x :: xs).take n ∨ c ∈ chunksAux n f ((x :: xs).drop n) := by
        simpa [chunksAux] using hc
      rcases hc2 with rfl | hc2
      · rw [List.length_take]; exact inf_le_left
      · exact ih _ c hc2

/-- Every chunk holds at most n elements. -/
theorem chunks_length_le (n : Nat) (l : List α) :
    ∀ c ∈ chunks n l, c.length ≤ n :=
  chunksAux_length_le n l.length l

/-- Pulling referenced groups into a batch never changes its users. -/
theorem addBatchGroups_users (full : UsersAndGroups) (gns : List String) (b : UsersAndGroups) :
    (addBatchGroups full gns b).users = b.users := by
  induction gns generalizing b with
  | nil => rfl
  | cons gn rest ih =>
    show (match full.getGroup gn with
          | some g => addBatchGroups full rest (b.addGroupIgnoreDup g)
          | none => addBatchGroups full rest b).users = b.users
    cases hg : full.getGroup gn with
    | some g => rw [ih (b.addGroupIgnoreDup g), addGroupIgnoreDup_users]
    | none => exact ih b

/-- Pulling referenced groups into a batch preserves every group already
found by name. -/
theorem addBatchGroups_mono (full : UsersAndGroups) (gns : List String) (b : UsersAndGroups)
    (gn0 : String) (g' : Group) (h : b.getGroup gn0 = some g') :
    (addBatchGroups full gns b).getGroup gn0 = some g' := by
  induction gns generalizing b with
  | nil => exact h
  | cons gn rest ih =>
    show (match full.getGroup gn with
          | some g => addBatchGroups full rest (b.addGroupIgnoreDup g)
          | none => addBatchGroups full rest b).getGroup gn0 = some g'
    cases hg : full.getGroup gn with
    | some g => exact ih (b.addGroupIgnoreDup g) (addGroupIgnoreDup_getGroup_mono b g gn0 g' h)
    | none => exact ih b h

/-- Pulling referenced groups into a batch preserves the batch-group
invariant. -/
theorem addBatchGroups_groupsFrom (full : UsersAndGroups) (gns : List String)
    (b : UsersAndGroups) (hb : groupsFrom full b) :
    groupsFrom full (addBatchGroups full gns b) := by
  induction gns generalizing b with
  | nil => exact hb
  | cons gn rest ih =>
    show groupsFrom full
      (match full.getGroup gn with
       | some g => addBatchGroups full rest (b.addGroupIgnoreDup g)
       | none => addBatchGroups full rest b)
    cases hg : full.getGroup gn with
    | some g =>
      have hgname : full.getGroup g.name = some g := by
        rw [getGroup_name_eq full gn g hg]; exact hg
      exact ih (b.addGroupIgnoreDup g) (groupsFrom_addIgnore full b g hb hgname)
    | none => exact ih b hb

/-- After pulling the referenced groups of a name list into a batch,
every listed name defined in the full dataset resolves in the batch to
the full dataset's group. -/
theorem addBatchGroups_covers (full : UsersAndGroups) (gns : List String)
    (b : UsersAndGroups) (hb : groupsFrom full b) :
    ∀ gn ∈ gns, ∀ g, full.getGroup gn = some g →
      (addBatchGroups full gns b).getGroup gn = some g := by
  induction gns generalizing b with
  | nil => intro gn h; cases h
  | cons gn0 rest ih =>
    intro gn hmem g hfull
    show (match full.getGroup gn0 with
          | some g1 => addBatchGroups full rest (b.addGroupIgnoreDup g1)
          | none => addBatchGroups full rest b).getGroup gn = some g
    rcases List.mem_cons.mp hmem with rfl | hmem'
    · rw [hfull]
      have hname : g.name = gn := getGroup_name_eq full gn g hfull
      have hsome : ((b.addGroupIgnoreDup g).getGroup gn).isSome = true := by
        rw [← hname]; exact addGroupIgnoreDup_self_isSome b g
      have hfrom : groupsFrom full (b.addGroupIgnoreDup g) :=
        groupsFrom_addIgnore full b g hb (by rw [hname]; exact hfull)
      have hres : (b.addGroupIgnoreDup g).getGroup gn = some g :=
        getGroup_of_groupsFrom_isSome full _ gn g hfrom hsome hfull
      exact addBatchGroups_mono full rest _ gn g hres
    · cases hg : full.getGroup gn0 with
      | some g1 =>
        have hgname : full.getGroup g1.name = some g1 := by
          rw [getGroup_name_eq full gn0 g1 hg]; exact hg
        exact ih (b.addGroupIgnoreDup g1) (groupsFrom_addIgnore full b g1 hb hgname) gn hmem' g hfull
      | none => exact ih b hb gn hmem' g hfull

/-- Batch construction over a chunk of users succeeds whenever the chunk
is drawn from the full dataset and all names are pairwise distinct; the
batch's users are exactly the starting users followed by the chunk, and
every group referenced by a chunk user and defined in the full dataset
resolves in the batch to the full dataset's group. -/
theorem buildBatchGo_spec (full : UsersAndGroups)
    (hndfull : (full.users.map User.name).Nodup) :
    ∀ (ub : List User) (b : UsersAndGroups),
      (∀ u ∈ ub, u ∈ full.users) →
      ((b.users ++ ub).map User.name).Nodup →
      groupsFrom full b →
      ∃ out, buildBatchGo full ub b = .ok out ∧
        out.users = b.users ++ ub ∧
        groupsFrom full out ∧
        (∀ gn g', b.getGroup gn = some g' → out.getGroup gn = some g') ∧
        (∀ u ∈ ub, ∀ gn ∈ u.groupNames, ∀ g, full.getGroup gn = some g →
          out.getGroup gn = some g) := by
  intro ub
  induction ub with
  | nil =>
    intro b _ _ hb
    exact ⟨b, rfl, by simp, hb, fun _ _ h => h, by simp⟩
  | cons u rest ih =>
    intro b hsub hnd hb
    have hu_full : u ∈ full.users := hsub u (List.mem_cons_self u rest)
    have hfind : full.getUser u.name = some u := getUser_of_mem_nodup full u hu_full hndfull
    have hnd' : (List.map User.name b.users).Nodup ∧
        (List.map User.name (u :: rest)).Nodup ∧
        (List.map User.name b.users).Disjoint (List.map User.name (u :: rest)) := by
      rw [← List.nodup_append]
      simpa [List.map_append] using hnd
    have hnotin : ∀ x ∈ b.users, ¬(x.name == u.name) = true := by
      intro x hx hbeq
      have hxeq : x.name = u.name := by simpa using hbeq
      have h1 : x.name ∈ List.map User.name b.users := List.mem_map_of_mem User.name hx
      have h2 : x.name ∈ List.map User.name (u :: rest) := by
        rw [hxeq]; simp
      exact hnd'.2.2 h1 h2
    have haddU : b.addUser u = .ok (UsersAndGroups.mk (b.users ++ [u]) b.groups) := by
      unfold UsersAndGroups.addUser
      have hnone : b.getUser u.name = none := by
        unfold UsersAndGroups.getUser
        exact List.find?_eq_none.mpr hnotin
      rw [hnone]
    have hstep : buildBatchGo full (u :: rest) b =
        buildBatchGo full rest
          (addBatchGroups full u.groupNames (UsersAndGroups.mk (b.users ++ [u]) b.groups)) := by
      simp only [buildBatchGo, hfind, haddU]
    have hb2From : groupsFrom full (UsersAndGroups.mk (b.users ++ [u]) b.groups) :=
      fun gn g' h => hb gn g' h
    have hb3From : groupsFrom full
        (addBatchGroups full u.groupNames (UsersAndGroups.mk (b.users ++ [u]) b.groups)) :=
      addBatchGroups_groupsFrom full _ _ hb2From
    have hb3users :
        (addBatchGroups full u.groupNames (UsersAndGroups.mk (b.users ++ [u]) b.groups)).users =
          b.users ++ [u] :=
      addBatchGroups_users full _ _
    have hsub' : ∀ v ∈ rest, v ∈ full.users := fun v hv => hsub v (List.mem_cons_of_mem u hv)
    have hnd2 :
        (((addBatchGroups full u.groupNames
            (UsersAndGroups.mk (b.users ++ [u]) b.groups)).users ++ rest).map User.name).Nodup := by
      rw [hb3users, List.append_assoc]
      simpa using hnd
    obtain ⟨out, ho, housers, hofrom, homono, hocover⟩ := ih _ hsub' hnd2 hb3From
    refine ⟨out, ?_, ?_, hofrom, ?_, ?_⟩
    · rw [hstep]; exact ho
    · rw [housers, hb3users, List.append_assoc]
      simp
    · intro gn g' h
      exact homono gn g' (addBatchGroups_mono full u.groupNames _ gn g' h)
    · intro v hv gn hgn g hfullg
      rcases List.mem_cons.mp hv with rfl | hv'
      · have hcov :
            (addBatchGroups full v.groupNames
              (UsersAndGroups.mk (b.users ++ [v]) b.groups)).getGroup gn = some g :=
          addBatchGroups_covers full v.groupNames _ hb2From gn hgn g hfullg
        exact homono gn g hcov
      · exact hocover v hv' gn hgn g hfullg

/-- Building a batch from a chunk of the full dataset's users yields a
batch whose user list is exactly the chunk and which contains every
referenced group that the full dataset defines. -/
theorem buildBatch_spec (full : UsersAndGroups) (hndfull : (full.users.map User.name).Nodup)
    (c : List User) (hsub : ∀ u ∈ c, u ∈ full.users) (hnd : (c.map User.name).Nodup) :
    ∃ out, buildBatch full c = .ok out ∧ out.users = c ∧
      (∀ u ∈ c, ∀ gn ∈ u.groupNames, ∀ g, full.getGroup gn = some g →
        out.getGroup gn = some g) := by
  obtain ⟨out, ho, housers, _, _, hocover⟩ :=
    buildBatchGo_spec full hndfull c {} hsub (by simpa using hnd) (groupsFrom_empty full)
  exact ⟨out, ho, by simpa using housers, hocover⟩

/-- Building all batches from chunks of the full dataset's users yields
one batch per chunk, user lists matching the chunks. -/
theorem batchesGo_spec (full : UsersAndGroups) (hndfull : (full.users.map User.name).Nodup) :
    ∀ cs : List (List User),
      (∀ c ∈ cs, ∀ u ∈ c, u ∈ full.users) →
      (∀ c ∈ cs, (c.map User.name).Nodup) →
      ∃ bs, batchesGo full cs = .ok bs ∧
        bs.map UsersAndGroups.users = cs ∧
        (∀ b ∈ bs, ∀ u ∈ b.users, ∀ gn ∈ u.groupNames, ∀ g,
          full.getGroup gn = some g → b.getGroup gn = some g) := by
  intro cs
  induction cs with
  | nil => intro _ _; exact ⟨[], rfl, rfl, by simp⟩
  | cons c rest ih =>
    intro hsub hnd
    obtain ⟨b, hb, hbusers, hbcover⟩ :=
      buildBatch_spec full hndfull c (hsub c (List.mem_cons_self c rest))
        (hnd c (List.mem_cons_self c rest))
    obtain ⟨bs, hbs, hbsusers, hbscover⟩ :=
      ih (fun c' h => hsub c' (List.mem_cons_of_mem c h))
        (fun c' h => hnd c' (List.mem_cons_of_mem c h))
    refine ⟨b :: bs, ?_, ?_, ?_⟩
    · simp only [batchesGo, hb, hbs]
    · simp [hbsusers, hbusers]
    · intro b' hb' u hu gn hgn g hg
      rcases List.mem_cons.mp hb' with rfl | hb''
      · rw [hbusers] at hu
        exact hbcover u hu gn hgn g hg
      · exact hbscover b' hb'' u hu gn hgn g hg

/-- C2 (amended): for every dataset with pairwise distinct user names
(the container's uniqueness invariant) and every batch size n greater
than zero, batching partitions the dataset's users into consecutive
batches of at most n users each whose user lists concatenate, in order,
to exactly the dataset's user list, and every group that is referenced
within a batch and is defined in the dataset's group table is present in
that same batch.  (The claim's unconditional group clause fails for
groups referenced but never defined; see the counterexample.) -/
theorem c2_amended_batching (uag : UsersAndGroups) (n : Nat) (hn : 0 < n)
    (hnd : (uag.users.map User.name).Nodup) :
    ∃ bs, batches uag n = .ok bs ∧
      (bs.map UsersAndGroups.users).flatten = uag.users ∧
      (∀ b ∈ bs, b.users.length ≤ n) ∧
      (∀ b ∈ bs, ∀ u ∈ b.users, ∀ gn ∈ u.groupNames, ∀ g,
        uag.getGroup gn = some g → b.getGroup gn = some g) := by
  have hflat : (chunks n uag.users).flatten = uag.users := chunks_flatten n hn _
  have hmem_users : ∀ c ∈ chunks n uag.users, ∀ u ∈ c, u ∈ uag.users := by
    intro c hc u hu
    rw [← hflat]
    exact List.mem_flatten.mpr ⟨c, hc, hu⟩
  have hnodups : ∀ c ∈ chunks n uag.users, (c.map User.name).Nodup := by
    have h1 : ((chunks n uag.users).map (List.map User.name)).flatten =
        uag.users.map User.name := by
      rw [← List.map_flatten, hflat]
    intro c hc
    have h2 : (uag.users.map User.name).Nodup := hnd
    rw [← h1] at h2
    exact (List.nodup_flatten.mp h2).1 _ (List.mem_map_of_mem _ hc)
  obtain ⟨bs, h1, h2, h3⟩ := batchesGo_spec uag hnd (chunks n uag.users) hmem_users hnodups
  refine ⟨bs, h1, ?_, ?_, h3⟩
  · rw [h2]; exact hflat
  · intro b hb
    have hmem : b.users ∈ chunks n uag.users := by
      rw [← h2]; exact List.mem_map_of_mem _ hb
    exact chunks_length_le n _ _ hmem

/-- C2 (counterexample to the claim as stated): on the dataset whose only
user references the undefined group name G, batching with size 1
produces a batch in which G is referenced but no group named G is
present, so the claim's group clause is false without the defined-in-D
qualification. -/
theorem c2_counterexample :
    batches c2exD 1 = Except.ok [c2exD] ∧
    c2exAlice ∈ c2exD.users ∧
    "G" ∈ c2exAlice.groupNames ∧
    c2exD.getGroup "G" = none := by
  decide

/-- C2 (witness): the amended batching theorem instantiated on a concrete
three-user dataset with batch size 2. -/
theorem c2_amended_batching_witness :
    ((0 < 2) ∧ (c2wD.users.map User.name).Nodup) ∧
    (∃ bs, batches c2wD 2 = .ok bs ∧
      (bs.map UsersAndGroups.users).flatten = c2wD.users ∧
      (∀ b ∈ bs, b.users.length ≤ 2) ∧
      (∀ b ∈ bs, ∀ u ∈ b.users, ∀ gn ∈ u.groupNames, ∀ g,
        c2wD.getGroup gn = some g → b.getGroup gn = some g)) :=
  ⟨⟨by decide, by decide⟩, c2_amended_batching c2wD 2 (by decide) (by decide)⟩

/-- add_group with the default policy succeeds on a fresh name and
appends the group. -/
theorem addGroup_of_absent (b : UsersAndGroups) (g : Group)
    (h : b.getGroup g.name = none) :
    b.addGroup g = .ok (UsersAndGroups.mk b.users (b.groups ++ [g])) := by
  unfold UsersAndGroups.addGroup
  rw [h]

/-- After appending a group whose name was absent, that name resolves to
the appended group. -/
theorem getGroup_append_self (b : UsersAndGroups) (g : Group)
    (h : b.getGroup g.name = none) :
    (UsersAndGroups.mk b.users (b.groups ++ [g])).getGroup g.name = some g := by
  unfold UsersAndGroups.getGroup at h ⊢
  rw [List.find?_append, h]
  simp [List.find?]

/-- Appending a group leaves lookups of other names unchanged. -/
theorem getGroup_append_other (b : UsersAndGroups) (g : Group) (gn : String)
    (h : g.name ≠ gn) :
    (UsersAndGroups.mk b.users (b.groups ++ [g])).getGroup gn = b.getGroup gn := by
  unfold UsersAndGroups.getGroup
  rw [List.find?_append]
  have hbeq : (g.name == gn) = false := by
    simpa using h
  have hnone : List.find? (fun x => x.name == gn) [g] = none := by
    simp [List.find?, hbeq]
  rw [hnone]
  exact Option.or_none

/-- The group chosen for a referenced name carries that name, whether
copied or synthesized. -/
theorem copyOrImplicit_name (original : UsersAndGroups) (gn : String) :
    (copyOrImplicit original gn).name = gn := by
  unfold copyOrImplicit
  cases horig : original.getGroup gn with
  | some g => exact getGroup_name_eq original gn g horig
  | none => rfl

/-- The implicit-group-creation loop over a duplicate-free list of
referenced names succeeds; names outside the list are untouched, and
each listed name afterwards resolves to what the accumulator already had
or, when absent, to the copied-or-synthesized group. -/
theorem addAllGo_spec (original : UsersAndGroups) :
    ∀ (names : List String) (acc : UsersAndGroups), names.Nodup →
      ∃ out, addAllGo original names acc = .ok out ∧
        (∀ gn, gn ∉ names → out.getGroup gn = acc.getGroup gn) ∧
        (∀ gn ∈ names,
          out.getGroup gn = (acc.getGroup gn).or (some (copyOrImplicit original gn))) := by
  intro names
  induction names with
  | nil => intro acc _; exact ⟨acc, rfl, fun _ _ => rfl, by simp⟩
  | cons n rest ih =>
    intro acc hnd
    obtain ⟨hn_rest, hrest⟩ := List.nodup_cons.mp hnd
    cases hacc : acc.getGroup n with
    | some g0 =>
      have hskip : addAllGo original (n :: rest) acc = addAllGo original rest acc := by
        simp [addAllGo, hacc]
      obtain ⟨out, ho, hno, hyes⟩ := ih acc hrest
      refine ⟨out, by rw [hskip]; exact ho, ?_, ?_⟩
      · intro gn hgn
        exact hno gn (fun hm => hgn (List.mem_cons_of_mem _ hm))
      · intro gn hgn
        rcases List.mem_cons.mp hgn with rfl | hgn'
        · rw [hno gn hn_rest, hacc]; rfl
        · exact hyes gn hgn'
    | none =>
      have hname : (copyOrImplicit original n).name = n := copyOrImplicit_name original n
      have habs : acc.getGroup (copyOrImplicit original n).name = none := by
        rw [hname]; exact hacc
      have hstep : addAllGo original (n :: rest) acc =
          addAllGo original rest
            (UsersAndGroups.mk acc.users (acc.groups ++ [copyOrImplicit original n])) := by
        cases horig : original.getGroup n with
        | some g =>
          have hci : copyOrImplicit original n = g := by
            simp [copyOrImplicit, horig]
          rw [hci] at habs ⊢
          simp [addAllGo, hacc, horig, addGroup_of_absent acc g habs]
        | none =>
          have hci : copyOrImplicit original n = implicitGroup n := by
            simp [copyOrImplicit, horig]
          rw [hci] at habs ⊢
          simp [addAllGo, hacc, horig, addGroup_of_absent acc (implicitGroup n) habs]
      obtain ⟨out, ho, hno, hyes⟩ :=
        ih (UsersAndGroups.mk acc.users (acc.groups ++ [copyOrImplicit original n])) hrest
      have hacc2_n :
          (UsersAndGroups.mk acc.users (acc.groups ++ [copyOrImplicit original n])).getGroup n =
            some (copyOrImplicit original n) := by
        have hself := getGroup_append_self acc (copyOrImplicit original n) habs
        rw [hname] at hself
        exact hself
      have hacc2_other : ∀ gn, gn ≠ n →
          (UsersAndGroups.mk acc.users (acc.groups ++ [copyOrImplicit original n])).getGroup gn =
            acc.getGroup gn := by
        intro gn hne
        exact getGroup_append_other acc _ gn (by rw [hname]; exact fun he => hne he.symm)
      refine ⟨out, by rw [hstep]; exact ho, ?_, ?_⟩
      · intro gn hgn
        have h1 : gn ∉ rest := fun hm => hgn (List.mem_cons_of_mem _ hm)
        have h2 : gn ≠ n := fun he => hgn (he ▸ List.mem_cons_self _ _)
        rw [hno gn h1, hacc2_other gn h2]
      · intro gn hgn
        rcases List.mem_cons.mp hgn with rfl | hgn'
        · rw [hno gn hn_rest, hacc2_n, hacc]; rfl
        · rw [hyes gn hgn']
          have hne : gn ≠ n := fun he => hn_rest (he ▸ hgn')
          rw [hacc2_other gn hne]

/-- C3 (amended): with implicit group creation enabled, every group name
referenced by a user of the new dataset but absent from its group table
afterwards resolves: to the original dataset's group of that name copied
verbatim when it exists, and otherwise to the synthesized placeholder
whose displayName equals the name, whose description is exactly
"Implicitely created group." (the source's literal spelling, with
trailing period), and which has no privileges. -/
theorem c3_amended_implicit_groups (original newUGs : UsersAndGroups) :
    ∃ out, addAllUserGroups original newUGs = .ok out ∧
      ∀ gn, (∃ u ∈ newUGs.users, gn ∈ u.groupNames) → newUGs.getGroup gn = none →
        ((∀ g, original.getGroup gn = some g → out.getGroup gn = some g) ∧
         (original.getGroup gn = none → out.getGroup gn = some (implicitGroup gn))) := by
  obtain ⟨out, ho, _, hyes⟩ :=
    addAllGo_spec original (referencedGroupNames newUGs) newUGs (List.nodup_dedup _)
  refine ⟨out, ho, ?_⟩
  intro gn href habs
  have hmem : gn ∈ referencedGroupNames newUGs := by
    unfold referencedGroupNames
    rw [List.mem_dedup, List.mem_flatMap]
    obtain ⟨u, hu, hg⟩ := href
    exact ⟨u, hu, hg⟩
  have hres : out.getGroup gn = some (copyOrImplicit original gn) := by
    rw [hyes gn hmem, habs]; rfl
  constructor
  · intro g hg
    rw [hres]
    unfold copyOrImplicit
    rw [hg]
  · intro hg
    rw [hres]
    unfold copyOrImplicit
    rw [hg]

/-- C3 (counterexample to the claim as stated): synthesizing the Sales
placeholder on a dataset with an empty original produces the description
"Implicitely created group." - not the claimed "implicitly created
group". -/
theorem c3_counterexample :
    addAllUserGroups {} c3exNew = Except.ok c3exOut ∧
    c3exOut.getGroup "Sales" = some (implicitGroup "Sales") ∧
    (implicitGroup "Sales").description = some "Implicitely created group." ∧
    (implicitGroup "Sales").description ≠ some "implicitly created group" := by
  decide

/-- C3 (witness): the amended theorem instantiated on the copy scenario,
together with the concrete computation showing the Sales group is copied
with its description Regional intact. -/
theorem c3_amended_implicit_groups_witness :
    (∃ out, addAllUserGroups c3wOrig c3exNew = .ok out ∧
      ∀ gn, (∃ u ∈ c3exNew.users, gn ∈ u.groupNames) → c3exNew.getGroup gn = none →
        ((∀ g, c3wOrig.getGroup gn = some g → out.getGroup gn = some g) ∧
         (c3wOrig.getGroup gn = none → out.getGroup gn = some (implicitGroup gn)))) ∧
    addAllUserGroups c3wOrig c3exNew =
      Except.ok (UsersAndGroups.mk c3exNew.users [c3wSales]) ∧
    c3wSales.description = some "Regional" :=
  ⟨c3_amended_implicit_groups c3wOrig c3exNew, by decide, by decide⟩

/-- Merging preserves a user's name. -/
theorem mergeUser_name (original : UsersAndGroups) (nu : User) :
    (mergeUser original nu).name = nu.name := by
  unfold mergeUser
  cases original.getUser nu.name <;> rfl

/-- Name lookup commutes with the per-user merge map. -/
theorem find?_map_mergeUser (original : UsersAndGroups) (l : List User) (name : String)
    (nu : User) (h : l.find? (fun x => x.name == name) = some nu) :
    (l.map (mergeUser original)).find? (fun x => x.name == name) =
      some (mergeUser original nu) := by
  induction l with
  | nil => simp at h
  | cons v rest ih =>
    by_cases hp : (v.name == name) = true
    · rw [@List.find?_cons_of_pos User (fun x => x.name == name) v rest hp] at h
      injection h with h
      subst h
      rw [List.map_cons]
      rw [@List.find?_cons_of_pos User (fun x => x.name == name) (mergeUser original v)
        (rest.map (mergeUser original))
        (show ((mergeUser original v).name == name) = true by rw [mergeUser_name]; exact hp)]
    · rw [@List.find?_cons_of_neg User (fun x => x.name == name) v rest hp] at h
      rw [List.map_cons]
      rw [@List.find?_cons_of_neg User (fun x => x.name == name) (mergeUser original v)
        (rest.map (mergeUser original))
        (show ¬((mergeUser original v).name == name) = true by rw [mergeUser_name]; exact hp)]
      exact ih h

/-- C4: with group merge enabled, every user present in both datasets
ends up with the original user's group memberships concatenated onto the
new user's group list, without deduplication; a user absent from the
original dataset is left exactly unchanged. -/
theorem c4_merge_concatenates (original newUGs : UsersAndGroups) (name : String) (nu : User)
    (h : newUGs.getUser name = some nu) :
    ((mergeGroupsIntoNew original newUGs).getUser name = some (mergeUser original nu)) ∧
    (∀ ou, original.getUser name = some ou →
      (mergeGroupsIntoNew original newUGs).getUser name =
        some { nu with groupNames := nu.groupNames ++ ou.groupNames }) ∧
    (original.getUser name = none →
      (mergeGroupsIntoNew original newUGs).getUser name = some nu) := by
  have hname : nu.name = name := getUser_name_eq newUGs name nu h
  have h1 : (mergeGroupsIntoNew original newUGs).getUser name = some (mergeUser original nu) :=
    find?_map_mergeUser original newUGs.users name nu h
  refine ⟨h1, ?_, ?_⟩
  · intro ou hou
    rw [h1]
    unfold mergeUser
    rw [hname, hou]
  · intro hnone
    rw [h1]
    unfold mergeUser
    rw [hname, hnone]

/-- C4 (witness): merging the bob example - original membership Eng,
new membership Support - yields bob with both memberships. -/
theorem c4_merge_concatenates_witness :
    c4wNew.getUser "bob" = some c4wBob ∧
    (mergeGroupsIntoNew c4wOrig c4wNew).getUser "bob" =
      some { c4wBob with groupNames := c4wBob.groupNames ++ ["Eng"] } ∧
    "Support" ∈ c4wBob.groupNames ++ ["Eng"] ∧
    "Eng" ∈ c4wBob.groupNames ++ ["Eng"] :=
  ⟨by decide,
   (c4_merge_concatenates c4wOrig c4wNew "bob" c4wBob (by decide)).2.1
     { name := "bob", groupNames := ["Eng"] } (by decide),
   by decide, by decide⟩

/-- C1: requesting remove_deleted together with a positive batch size
makes sync_users_and_groups fail immediately with the configuration
error of api.py lines 328-329; the event trace is empty, so no network
request is attempted and no part of the dataset is submitted. -/
theorem c1_remove_deleted_batching_exclusive
    (env : SyncEnv) (uag : UsersAndGroups) (applyChanges removeDeleted : Bool)
    (batchSize : Int) (createGroups mergeGroups : Bool)
    (logDir archiveDir callerTs : String) (syncFiles : List String) (emailCfg : Bool)
    (hr : removeDeleted = true) (hb : batchSize > 0) :
    syncUsersAndGroups env uag applyChanges removeDeleted batchSize createGroups mergeGroups
        logDir archiveDir callerTs syncFiles emailCfg =
      ([], .error (.configError "Cannot have remove_deleted True and batch_size > 0")) := by
  unfold syncUsersAndGroups
  rw [if_pos ⟨hr, hb⟩]

/-- C1 (witness): the mutual-exclusion theorem instantiated at
remove_deleted true and batch size 1. -/
theorem c1_remove_deleted_batching_exclusive_witness :
    ((true : Bool) = true ∧ (1 : Int) > 0) ∧
    syncUsersAndGroups sampleEnv sampleValidUAG false true 1 false false
        "logs" "archive" "ts" [] false =
      ([], .error (.configError "Cannot have remove_deleted True and batch_size > 0")) :=
  ⟨⟨rfl, by decide⟩,
   c1_remove_deleted_batching_exclusive sampleEnv sampleValidUAG false true 1 false false
     "logs" "archive" "ts" [] false rfl (by decide)⟩

/-- C5: on any dataset whose validity check reports a violation, the
sync raises without the sync network request ever appearing in the
event trace, and when email notification is configured the trace holds
the failure message with subject "Failure - Sync with TS" before the
raise. -/
theorem c5_invalid_dataset_aborts
    (env : SyncEnv) (uag : UsersAndGroups) (applyChanges removeDeleted : Bool)
    (logDir archiveDir callerTs : String) (syncFiles : List String) (emailCfg : Bool)
    (h : (uag.isValid).1 = false) :
    syncOne env uag applyChanges removeDeleted logDir archiveDir callerTs syncFiles emailCfg =
      ((if emailCfg then [SyncEvent.emailSent "Failure - Sync with TS"] else []),
        .error .invalidDataset) ∧
    ∀ p a2 r2, SyncEvent.postSync p a2 r2 ∉
      (syncOne env uag applyChanges removeDeleted logDir archiveDir callerTs syncFiles emailCfg).1 := by
  have h1 : syncOne env uag applyChanges removeDeleted logDir archiveDir callerTs syncFiles emailCfg =
      ((if emailCfg then [SyncEvent.emailSent "Failure - Sync with TS"] else []),
        .error .invalidDataset) := by
    unfold syncOne
    rw [h]
    simp
  refine ⟨h1, ?_⟩
  intro p a2 r2
  rw [h1]
  cases emailCfg <;> simp

/-- C5 (witness): the abort theorem instantiated on the concrete invalid
dataset (its user references the undefined group G) with email
notification configured. -/
theorem c5_invalid_dataset_aborts_witness :
    (sampleInvalidUAG.isValid).1 = false ∧
    (syncOne sampleEnv sampleInvalidUAG true false "logs" "archive" "ts" [] true =
      ((if true then [SyncEvent.emailSent "Failure - Sync with TS"] else []),
        .error .invalidDataset) ∧
     ∀ p a2 r2, SyncEvent.postSync p a2 r2 ∉
       (syncOne sampleEnv sampleInvalidUAG true false "logs" "archive" "ts" [] true).1) :=
  ⟨by decide,
   c5_invalid_dataset_aborts sampleEnv sampleInvalidUAG true false "logs" "archive" "ts" [] true
     (by decide)⟩

/-- C6 (amended): every successful sync whose response reports at least
one change produces a CSV table of the header plus exactly one row per
change, each row holding the four fields entity, entity_type,
change_type, timestamp in that order (the column order the source's
DictWriter derives from the change-dict insertion order; the claim's
timestamp-first order is refuted by the counterexample), with the
timestamp field equal to the response-time timestamp. -/
theorem c6_amended_csv_change_log (nowStr : String) (buckets : List (String × List String))
    (h : changeRows nowStr buckets ≠ []) :
    csvTable nowStr buckets = csvHeader :: (changeRows nowStr buckets).map renderRow ∧
    csvHeader = ["entity", "entity_type", "change_type", "timestamp"] ∧
    (changeRows nowStr buckets).length = (buckets.map (fun kv => kv.2.length)).sum ∧
    (∀ r ∈ changeRows nowStr buckets,
      renderRow r = [r.entity, optCell r.entityType, optCell r.changeType, r.timestamp] ∧
      r.timestamp = nowStr) := by
  refine ⟨?_, rfl, ?_, ?_⟩
  · unfold csvTable
    have hne : (changeRows nowStr buckets).isEmpty = false := List.isEmpty_eq_false.mpr h
    simp [hne]
  · unfold changeRows
    rw [List.length_flatMap]
    congr 1
    simp [Function.comp]
  · intro r hr
    unfold changeRows at hr
    simp only [List.mem_flatMap, List.mem_map] at hr
    obtain ⟨kv, _, e, _, rfl⟩ := hr
    exact ⟨rfl, rfl⟩

/-- C6 (counterexample to the claim as stated): a response adding user
alice yields the header row entity, entity_type, change_type, timestamp
and the data row alice, User, Added, T0 - not the claimed timestamp,
entity, entity_type, change_type order. -/
theorem c6_counterexample :
    csvTable "T0" c6exBuckets =
      [["entity", "entity_type", "change_type", "timestamp"],
       ["alice", "User", "Added", "T0"]] ∧
    (["alice", "User", "Added", "T0"] : List String) ≠ ["T0", "alice", "User", "Added"] ∧
    (["entity", "entity_type", "change_type", "timestamp"] : List String) ≠
      ["timestamp", "entity", "entity_type", "change_type"] := by
  decide

/-- C6 (witness): the amended CSV theorem instantiated on the
one-change response of the alice example. -/
theorem c6_amended_csv_change_log_witness :
    changeRows "T0" c6exBuckets ≠ [] ∧
    (csvTable "T0" c6exBuckets = csvHeader :: (changeRows "T0" c6exBuckets).map renderRow ∧
     csvHeader = ["entity", "entity_type", "change_type", "timestamp"] ∧
     (changeRows "T0" c6exBuckets).length = (c6exBuckets.map (fun kv => kv.2.length)).sum ∧
     (∀ r ∈ changeRows "T0" c6exBuckets,
       renderRow r = [r.entity, optCell r.entityType, optCell r.changeType, r.timestamp] ∧
       r.timestamp = "T0")) :=
  ⟨by decide, c6_amended_csv_change_log "T0" c6exBuckets (by decide)⟩

/-- C7: for a successful sync (valid dataset, status 200), the change-log
name pieces carry the tag _Test_Mode exactly when apply_changes is
false and the tag _NO_CHANGE exactly when the flattened change sequence
is empty, and the sync completes normally - also when that sequence is
empty. -/
theorem c7_file_name_tagging (env : SyncEnv) (uag : UsersAndGroups)
    (applyChanges removeDeleted : Bool) (logDir archiveDir callerTs : String)
    (syncFiles : List String) (emailCfg : Bool)
    (hval : (uag.isValid).1 = true) (hst : env.status = 200)
    (h1 : normDir logDir ≠ "_Test_Mode") (h2 : normDir logDir ≠ "_NO_CHANGE")
    (h3 : env.fileTs ≠ "_Test_Mode") (h4 : env.fileTs ≠ "_NO_CHANGE") :
    ("_Test_Mode" ∈ logNameParts (normDir logDir) env.fileTs applyChanges
        (changeRows env.nowStr env.buckets) ↔ applyChanges = false) ∧
    ("_NO_CHANGE" ∈ logNameParts (normDir logDir) env.fileTs applyChanges
        (changeRows env.nowStr env.buckets) ↔ changeRows env.nowStr env.buckets = []) ∧
    (syncOne env uag applyChanges removeDeleted logDir archiveDir callerTs
        syncFiles emailCfg).2 = .ok () := by
  have h1' : "_Test_Mode" ≠ normDir logDir := fun he => h1 he.symm
  have h2' : "_NO_CHANGE" ≠ normDir logDir := fun he => h2 he.symm
  have h3' : "_Test_Mode" ≠ env.fileTs := fun he => h3 he.symm
  have h4' : "_NO_CHANGE" ≠ env.fileTs := fun he => h4 he.symm
  refine ⟨?_, ?_, ?_⟩
  · unfold logNameParts
    cases applyChanges <;>
      cases hrows : (changeRows env.nowStr env.buckets).isEmpty <;>
        simp_all [List.mem_append]
  · unfold logNameParts
    cases applyChanges <;>
      cases hrows : (changeRows env.nowStr env.buckets).isEmpty <;>
        simp_all [List.mem_append, List.isEmpty_eq_false, List.isEmpty_iff]
  · unfold syncOne
    rw [hval, hst]
    simp

/-- C7 (witness): the tagging theorem instantiated on the sample
environment (no changes reported, apply_changes false), whose log name
therefore carries both tags. -/
theorem c7_file_name_tagging_witness :
    ((sampleValidUAG.isValid).1 = true ∧ sampleEnv.status = 200 ∧
     normDir "logs" ≠ "_Test_Mode" ∧ normDir "logs" ≠ "_NO_CHANGE" ∧
     sampleEnv.fileTs ≠ "_Test_Mode" ∧ sampleEnv.fileTs ≠ "_NO_CHANGE") ∧
    (("_Test_Mode" ∈ logNameParts (normDir "logs") sampleEnv.fileTs false
        (changeRows sampleEnv.nowStr sampleEnv.buckets) ↔ (false : Bool) = false) ∧
     ("_NO_CHANGE" ∈ logNameParts (normDir "logs") sampleEnv.fileTs false
        (changeRows sampleEnv.nowStr sampleEnv.buckets) ↔
          changeRows sampleEnv.nowStr sampleEnv.buckets = []) ∧
     (syncOne sampleEnv sampleValidUAG false false "logs" "archive" "ts" [] false).2 =
       .ok ()) :=
  ⟨⟨by decide, by decide, by decide, by decide, by decide, by decide⟩,
   c7_file_name_tagging sampleEnv sampleValidUAG false false "logs" "archive" "ts" [] false
     (by decide) (by decide) (by decide) (by decide) (by decide) (by decide)⟩

/-- C8 (amended): the sync's outcome and artifacts are entirely
independent of the caller-supplied current_timestamp (api.py line 517
overwrites the parameter before its first use), and the change-log name
pieces contain the response-time file timestamp instead. -/
theorem c8_amended_response_timestamp (env : SyncEnv) (uag : UsersAndGroups)
    (applyChanges removeDeleted : Bool) (logDir archiveDir callerTs1 callerTs2 : String)
    (syncFiles : List String) (emailCfg : Bool) :
    syncOne env uag applyChanges removeDeleted logDir archiveDir callerTs1 syncFiles emailCfg =
      syncOne env uag applyChanges removeDeleted logDir archiveDir callerTs2 syncFiles emailCfg ∧
    env.fileTs ∈ logNameParts (normDir logDir) env.fileTs applyChanges
      (changeRows env.nowStr env.buckets) :=
  ⟨rfl, by simp [logNameParts]⟩

/-- C8 (counterexample to the claim as stated): calling the sync with
caller timestamp CALLERTS19 produces change-log file names built from
the response-time timestamp; CALLERTS19 appears in neither the CSV nor
the JSON log name. -/
theorem c8_counterexample :
    (syncOne sampleEnv sampleValidUAG true false "logs" "archive" "CALLERTS19" [] false).1 =
      [SyncEvent.postSync sampleValidUAG true false,
       SyncEvent.csvWritten "logs/changes_07Oct25_12-00-00-000000_NO_CHANGE.csv" [],
       SyncEvent.jsonWritten "logs/changes_07Oct25_12-00-00-000000_NO_CHANGE.json" "resp",
       SyncEvent.sentDataSaved "sent_user_data_07Oct25_12-00-00-000000.csv"
         "sent_group_data_07Oct25_12-00-00-000000.csv"] ∧
    strContains "logs/changes_07Oct25_12-00-00-000000_NO_CHANGE.csv" "CALLERTS19" = false ∧
    strContains "logs/changes_07Oct25_12-00-00-000000_NO_CHANGE.json" "CALLERTS19" = false := by
  decide

/-- C9: every Oracle user row's constructed User has the underscore-
terminated names dropped from its combined group memberships - its
groupNames are exactly the filtered combination, none of them ends in an
underscore, and the drop warning is logged exactly when some combined
name ends in an underscore. -/
theorem c9_oracle_underscore_filtering (r : OracleUserRow) :
    (oracleUserFromRow r).groupNames =
      (oracleCombinedGroups r).filter (fun x => !(strEndsWith x "_")) ∧
    (∀ gn ∈ (oracleUserFromRow r).groupNames, strEndsWith gn "_" = false) ∧
    (oracleUnderscoreWarning r = true ↔
      ∃ gn ∈ oracleCombinedGroups r, strEndsWith gn "_" = true) := by
  refine ⟨rfl, ?_, ?_⟩
  · intro gn hgn
    have hp := (List.mem_filter.mp hgn).2
    simpa using hp
  · unfold oracleUnderscoreWarning oracleDroppedGroups
    constructor
    · intro hw
      have hne : (oracleCombinedGroups r).filter (fun x => strEndsWith x "_") ≠ [] := by
        intro he
        rw [he] at hw
        cases hw
      rcases List.exists_mem_of_ne_nil _ hne with ⟨x, hx⟩
      exact ⟨x, (List.mem_filter.mp hx).1, (List.mem_filter.mp hx).2⟩
    · intro ⟨gn, hgn, hend⟩
      have hmem : gn ∈ (oracleCombinedGroups r).filter (fun x => strEndsWith x "_") :=
        List.mem_filter.mpr ⟨hgn, hend⟩
      cases hfil : (oracleCombinedGroups r).filter (fun x => strEndsWith x "_") with
      | nil => rw [hfil] at hmem; cases hmem
      | cons a l => rfl

/-- C9 (witness): the filtering theorem instantiated on a concrete row
with group names Good, Bad_ and Also_, whose kept groups are exactly
Good. -/
theorem c9_oracle_underscore_filtering_witness :
    (oracleUserFromRow c9wRow).groupNames = ["Good"] ∧
    (∀ gn ∈ (oracleUserFromRow c9wRow).groupNames, strEndsWith gn "_" = false) ∧
    (oracleUnderscoreWarning c9wRow = true ↔
      ∃ gn ∈ oracleCombinedGroups c9wRow, strEndsWith gn "_" = true) :=
  ⟨by decide, (c9_oracle_underscore_filtering c9wRow).2.1,
   (c9_oracle_underscore_filtering c9wRow).2.2⟩

/-- C10: with the metadata fetch succeeding, every username that does
not resolve to a remote user id is skipped with a warning rather than
aborting - a successful delete response still completes the call - and
when no username resolves, delete_users returns normally without ever
issuing a delete request. -/
theorem c10_delete_users_skips_unresolved
    (metadata : List (String × String)) (deleteStatus : Nat) (usernames : List String) :
    (∀ u ∈ usernames, resolveUserId metadata u = none →
        DeleteEvent.warnedNotFound u ∈ (deleteUsers 200 metadata deleteStatus usernames).1) ∧
    ((∃ u ∈ usernames, (resolveUserId metadata u).isSome = true) → deleteStatus = 204 →
        (deleteUsers 200 metadata deleteStatus usernames).2 = .ok ()) ∧
    ((∀ u ∈ usernames, resolveUserId metadata u = none) →
        (deleteUsers 200 metadata deleteStatus usernames).2 = .ok () ∧
        ∀ ids, DeleteEvent.deleteRequested ids ∉ (deleteUsers 200 metadata deleteStatus usernames).1) := by
  refine ⟨?_, ?_, ?_⟩
  · intro u hu hnone
    have hwmem : DeleteEvent.warnedNotFound u ∈
        (usernames.filter (fun v => (resolveUserId metadata v).isNone)).map
          DeleteEvent.warnedNotFound :=
      List.mem_map_of_mem _ (List.mem_filter.mpr ⟨hu, by rw [hnone]; rfl⟩)
    unfold deleteUsers
    by_cases hids : (usernames.filterMap (resolveUserId metadata)).isEmpty
    · simp only [beq_self_eq_true, if_true, hids]
      simp [hwmem]
    · simp only [beq_self_eq_true, if_true, Bool.not_eq_true] at hids ⊢
      rw [if_neg (by simp [hids])]
      by_cases h204 : deleteStatus == 204 <;> simp [h204, hwmem]
  · intro ⟨u, hu, hsome⟩ h204
    obtain ⟨i, hi⟩ := Option.isSome_iff_exists.mp hsome
    have hne : usernames.filterMap (resolveUserId metadata) ≠ [] := by
      intro he
      have := List.filterMap_eq_nil_iff.mp he u hu
      rw [hi] at this
      cases this
    unfold deleteUsers
    simp only [beq_self_eq_true, if_true]
    rw [if_neg (by simpa [List.isEmpty_iff] using hne)]
    subst h204
    simp
  · intro hall
    have hnil : usernames.filterMap (resolveUserId metadata) = [] :=
      List.filterMap_eq_nil_iff.mpr hall
    unfold deleteUsers
    simp only [beq_self_eq_true, if_true]
    rw [if_pos (by simp [hnil])]
    refine ⟨rfl, ?_⟩
    intro ids hmem
    simp at hmem

/-- C10 (witness): deleting username b when the remote only knows a -
b is warned about and skipped, and the call returns normally with no
delete request. -/
theorem c10_delete_users_skips_unresolved_witness :
    DeleteEvent.warnedNotFound "b" ∈ (deleteUsers 200 [("a", "1")] 204 ["b"]).1 ∧
    (deleteUsers 200 [("a", "1")] 204 ["b"]).2 = Except.ok () ∧
    ∀ ids, DeleteEvent.deleteRequested ids ∉ (deleteUsers 200 [("a", "1")] 204 ["b"]).1 :=
  ⟨(c10_delete_users_skips_unresolved [("a", "1")] 204 ["b"]).1 "b" (by decide) (by decide),
   ((c10_delete_users_skips_unresolved [("a", "1")] 204 ["b"]).2.2 (by
      intro u hu
      have : u = "b" := by simpa using hu
      subst this
      decide)).1,
   ((c10_delete_users_skips_unresolved [("a", "1")] 204 ["b"]).2.2 (by
      intro u hu
      have : u = "b" := by simpa using hu
      subst this
      decide)).2⟩

end Tsut

